import Mathlib

/-!
Verification of the Lumina timeline / keyframe / silence-segmenter core.

The definitions below are shallow embeddings of the TypeScript source:
times, durations and sample values (JS `number`) are modelled as `ℚ`;
JS arrays become `List`; optional fields become `Option`.  Each definition
names the source function it embeds.
-/

/-- The five easing names of `AnimationKeyframe.easing` in the source
(`'linear' | 'easeIn' | 'easeOut' | 'bezier' | 'step'`). -/
inductive Easing where
  | linear
  | easeIn
  | easeOut
  | bezier
  | step
  deriving DecidableEq

/-- `AnimationKeyframe` from the source: a keyframe of one animated property.
`time` is local (relative to the owning segment's `start`). -/
structure AnimationKeyframe where
  property : String
  value : ℚ
  time : ℚ
  easing : Easing
  deriving DecidableEq

/-- `LayerType` from the source. -/
inductive LayerType where
  | video
  | image
  | text
  | audio
  deriving DecidableEq

/-- `VideoSegment` from the source (the fields the verified operations read or
write; the remaining fields — `src`, `content`, `style`, `transform`,
`anchorPoint`, `blendMode`, `effects` — are carried verbatim by the record
spreads in the source and are never consulted by the operations below). -/
structure VideoSegment where
  id : String
  type : LayerType
  start : ℚ
  duration : ℚ
  track : ℕ
  label : String
  srcStartTime : Option ℚ
  speed : ℚ
  opacity : ℚ
  animations : List AnimationKeyframe
  isActive : Bool
  locked : Bool
  deriving DecidableEq

/-- The slice of the App state that `handleRazor` reads and writes:
`layers` and `selectedLayerId`. -/
structure EditingState where
  layers : List VideoSegment
  selectedLayerId : Option String
  deriving DecidableEq

/-! ## Silence segmenter (`detectSilenceAndCut` in services/geminiService.ts) -/

/-- One output segment of `detectSilenceAndCut`.  The source pushes a full
`VideoSegment` whose only data-dependent fields are `duration` and
`srcStartTime` (the `id` mixes in the wall clock `Date.now()`, `label` is
`Clip n`, `start` is the constant `0`, and every other field is a fixed
default), so the embedding records exactly the data-dependent fields. -/
structure CutSegment where
  duration : ℚ
  srcStartTime : ℚ
  deriving DecidableEq

/-- The mutable state of the scan loop of `detectSilenceAndCut`:
`isSpeaking`, `speakStart`, `silenceStart` and the accumulated `segments`. -/
structure DetectState where
  isSpeaking : Bool
  speakStart : ℚ
  silenceStart : ℚ
  segments : List CutSegment
  deriving DecidableEq

/-- One iteration of the window loop of `detectSilenceAndCut`, for the window
of samples `chunk` beginning at sample index `i`.  The source compares
`Math.sqrt(sum / windowSize) > threshold`; since both sides are nonnegative
there (`threshold` is a nonnegative RMS amplitude), the embedding compares
the squares: `sum / windowSize > threshold ^ 2`. -/
def detectStep (sampleRate : ℚ) (windowSize : ℕ) (threshold minSilenceDuration : ℚ)
    (i : ℕ) (chunk : List ℚ) (st : DetectState) : DetectState :=
  let sum := (chunk.map (fun x => x * x)).sum
  if sum / (windowSize : ℚ) > threshold ^ 2 then
    -- Sound detected
    if st.isSpeaking then st
    else
      { st with isSpeaking := true,
                speakStart := max 0 ((i : ℚ) / sampleRate - 1/10) }
  else
    -- Silence detected
    if st.isSpeaking then
      let currentTime := (i : ℚ) / sampleRate
      if currentTime - st.silenceStart > minSilenceDuration then
        let duration := currentTime - st.speakStart
        { st with isSpeaking := false,
                  segments := if duration > 1/2
                    then st.segments ++ [⟨duration, st.speakStart⟩]
                    else st.segments }
      else st
    else { st with silenceStart := (i : ℚ) / sampleRate }

/-- The window loop of `detectSilenceAndCut` (`for i = 0; i < length;
i += windowSize`), processing `samples` from sample index `i` on.  `fuel`
bounds the number of iterations so the recursion is structural; each
iteration of the source loop consumes `windowSize ≥ 1` samples, so a fuel of
`samples.length` always suffices and the fuel-exhausted case never fires
under the positive-window guard of `detectSilenceAndCut`. -/
def detectLoop (sampleRate : ℚ) (windowSize : ℕ)
    (threshold minSilenceDuration : ℚ) :
    ℕ → List ℚ → ℕ → DetectState → DetectState
  | _, [], _, st => st
  | 0, _ :: _, _, st => st
  | fuel + 1, x :: xs, i, st =>
      detectLoop sampleRate windowSize threshold minSilenceDuration
        fuel ((x :: xs).drop windowSize) (i + windowSize)
        (detectStep sampleRate windowSize threshold minSilenceDuration i
          ((x :: xs).take windowSize) st)

/-- `detectSilenceAndCut` from the source, after audio decoding: scan the
sample array in 50 ms RMS windows, track speech spans, and emit the kept
segments; if still speaking at end of input, flush the final span without
the 0.5 s floor.  The source's `windowSize = Math.floor(sampleRate * 0.05)`;
for `windowSize = 0` (sample rates below 20 Hz) the source loop would not
advance, so the embedding is restricted to positive window sizes and returns
`[]` otherwise. -/
def detectSilenceAndCut (samples : List ℚ) (sampleRate : ℚ)
    (threshold minSilenceDuration : ℚ) : List CutSegment :=
  let windowSize := ⌊sampleRate * (1/20 : ℚ)⌋₊
  if 0 < windowSize then
    let st := detectLoop sampleRate windowSize threshold minSilenceDuration
      samples.length samples 0 ⟨false, 0, 0, []⟩
    st.segments ++
      (if st.isSpeaking then
        [⟨(samples.length : ℚ) / sampleRate - st.speakStart, st.speakStart⟩]
      else [])
  else []

/-! ## Razor / split (`handleRazor` in App.tsx) -/

/-- `handleRazor(time, layerId)` from App.tsx.  The new id is
`layerId-split-Date.now()` in the source; the wall-clock part is the
`suffix` parameter here.  Splitting is a no-op when the layer is not found
or when `time` is outside the open span `(start, start + duration)`. -/
def handleRazor (time : ℚ) (layerId : String) (suffix : String)
    (prev : EditingState) : EditingState :=
  match prev.layers.find? (fun l => l.id == layerId) with
  | none => prev
  | some layerToSplit =>
    if time ≤ layerToSplit.start ∨ layerToSplit.start + layerToSplit.duration ≤ time
    then prev
    else
      let splitRelative := time - layerToSplit.start
      let firstPart := { layerToSplit with duration := splitRelative }
      let secondPart := { layerToSplit with
        id := layerToSplit.id ++ "-split-" ++ suffix,
        start := time,
        duration := layerToSplit.duration - splitRelative }
      { layers := (prev.layers.map (fun l => if l.id == layerId then firstPart else l))
          ++ [secondPart],
        selectedLayerId := some secondPart.id }

/-! ## Left trim (the `RESIZE_L` branch of `handleLayerMouseDown` in
Timeline.tsx) -/

/-- The `RESIZE_L` update of `handleLayerMouseDown`, applied to the
(already snapped) candidate start time `newStart0`.  `none` models the
source's early `return` (no `onUpdateLayer` call) when the new source
offset would be negative. -/
def resizeLeft (layer : VideoSegment) (newStart0 : ℚ) : Option VideoSegment :=
  let newStart1 := if newStart0 < 0 then 0 else newStart0
  let endTime := layer.start + layer.duration
  let newStart := if newStart1 > endTime - 1/25 then endTime - 1/25 else newStart1
  let deltaStart := newStart - layer.start
  let newDuration := layer.duration - deltaStart
  let newSrcStart := layer.srcStartTime.getD 0 + deltaStart
  if newSrcStart < 0 then none
  else some { layer with
    start := newStart,
    duration := newDuration,
    srcStartTime := some newSrcStart }

/-! ## Snapping (`getSnapTime` in Timeline.tsx) -/

/-- The body of the `layers.forEach` of `getSnapTime`: try to snap to the
start and then the end boundary of layer `l`, keeping the pair
(closestTime, minDist). -/
def snapToLayer (targetTime : ℚ) (acc : ℚ × ℚ) (l : VideoSegment) : ℚ × ℚ :=
  let acc1 := if |targetTime - l.start| < acc.2 then (l.start, |targetTime - l.start|) else acc
  let e := l.start + l.duration
  if |targetTime - e| < acc1.2 then (e, |targetTime - e|) else acc1

/-- `getSnapTime(targetTime, ignoreLayerId)` from Timeline.tsx: with snapping
enabled, start from the pixel threshold `10 / zoomLevel` (in seconds), try
the playhead (`currentTime`) first and then both boundaries of every layer
other than `ignoreLayerId`, keeping the closest candidate that is strictly
within the running minimum distance. -/
def getSnapTime (snappingEnabled : Bool) (zoomLevel : ℚ) (currentTime : ℚ)
    (layers : List VideoSegment) (targetTime : ℚ) (ignoreLayerId : Option String) : ℚ :=
  if !snappingEnabled then targetTime
  else
    let thresholdSeconds := 10 / zoomLevel
    let acc0 : ℚ × ℚ := (targetTime, thresholdSeconds)
    let acc1 :=
      if |targetTime - currentTime| < acc0.2 then (currentTime, |targetTime - currentTime|)
      else acc0
    (layers.foldl
      (fun acc l => if some l.id == ignoreLayerId then acc else snapToLayer targetTime acc l)
      acc1).1

/-! ## Keyframe engine (`getInterpolatedValue` in App.tsx; `addKeyframe` and
`handlePropertyChange` in Sidebar.tsx) -/

/-- The easing switch inside `getInterpolatedValue`.  The source reads
`nextKey.easing || 'linear'`; every value of the `easing` union is a
non-empty string, so this is the identity on the stored easing. -/
def applyEasing (easing : Easing) (r : ℚ) : ℚ :=
  match easing with
  | .easeOut => 1 - (1 - r) ^ 3
  | .easeIn => r * r * r
  | .bezier => if r < 1/2 then 2 * r * r else 1 - (-2 * r + 2) ^ 2 / 2
  | .step => 0
  | .linear => r

/-- The interpolation of one bracketing pair in `getInterpolatedValue`:
the eased linear ratio between `prevKey` and `nextKey` at local time `lt`. -/
def lerpKeys (prevKey nextKey : AnimationKeyframe) (lt : ℚ) : ℚ :=
  let r := (lt - prevKey.time) / (nextKey.time - prevKey.time)
  prevKey.value + (nextKey.value - prevKey.value) * applyEasing nextKey.easing r

/-- `keyframes.findIndex(k => k.time > localTime)` combined with the lookup
of `keyframes[nextIndex]` and `keyframes[nextIndex - 1]`: walk the sorted
list keeping the previous keyframe, and interpolate at the first keyframe
whose time exceeds `lt`. -/
def interpWalk (lt : ℚ) (prevKey : AnimationKeyframe) :
    List AnimationKeyframe → ℚ
  | [] => prevKey.value
  | nextKey :: rest =>
      if lt < nextKey.time then lerpKeys prevKey nextKey lt
      else interpWalk lt nextKey rest

/-- The `.sort((a, b) => a.time - b.time)` of `getInterpolatedValue`
(JavaScript `Array.prototype.sort` is stable, as is insertion sort). -/
def sortKeyframes (ks : List AnimationKeyframe) : List AnimationKeyframe :=
  List.insertionSort (fun a b => a.time ≤ b.time) ks

/-- `getInterpolatedValue(layer, propertyPath, defaultValue)` from App.tsx,
with the App state's `currentTime` passed explicitly: filter the layer's
animations to the property, sort by time, clamp before the first and after
the last keyframe, and otherwise interpolate the bracketing pair with the
easing of the next keyframe. -/
def getInterpolatedValue (layer : VideoSegment) (propertyPath : String)
    (defaultValue : ℚ) (currentTime : ℚ) : ℚ :=
  let keyframes := sortKeyframes (layer.animations.filter
    (fun k => k.property == propertyPath))
  match keyframes with
  | [] => defaultValue
  | k0 :: rest =>
    let localTime := currentTime - layer.start
    if localTime ≤ k0.time then k0.value
    else
      let lastKey := (k0 :: rest).getLast (List.cons_ne_nil k0 rest)
      if lastKey.time ≤ localTime then lastKey.value
      else interpWalk localTime k0 rest

/-- The shared write of `addKeyframe` and of the animated branch of
`handlePropertyChange` in Sidebar.tsx: drop every keyframe of the same
property within 0.05 s of the target local time `lt`, then push the new
keyframe (with `'linear'` easing) at the end. -/
def writeKeyframe (animations : List AnimationKeyframe) (propPath : String)
    (lt v : ℚ) : List AnimationKeyframe :=
  (animations.filter
      (fun k => !(k.property == propPath) || decide ((1:ℚ)/20 < |k.time - lt|)))
    ++ [⟨propPath, v, lt, Easing.linear⟩]

/-- `addKeyframe(propPath, currentValue)` from Sidebar.tsx, acting on the
selected layer. -/
def addKeyframe (layer : VideoSegment) (currentTime : ℚ) (propPath : String)
    (currentValue : ℚ) : VideoSegment :=
  { layer with animations :=
      writeKeyframe layer.animations propPath (currentTime - layer.start) currentValue }

/-- `handlePropertyChange(propPath, value, staticUpdate)` from Sidebar.tsx:
if the property is animated, replace-or-insert a keyframe at the playhead;
otherwise apply the static update. -/
def handlePropertyChange (layer : VideoSegment) (currentTime : ℚ)
    (propPath : String) (value : ℚ) (staticUpdate : VideoSegment → VideoSegment) :
    VideoSegment :=
  if layer.animations.any (fun k => k.property == propPath) then
    { layer with animations :=
        writeKeyframe layer.animations propPath (currentTime - layer.start) value }
  else staticUpdate layer

/-! ## The two parts produced by a razor cut -/

/-- The first part of a razor split: keeps the id, truncated to the cut. -/
def razorFirstPart (layer : VideoSegment) (time : ℚ) : VideoSegment :=
  { layer with duration := time - layer.start }

/-- The second part of a razor split: fresh id, starts at the cut, keeps the
rest of the span; every other field is copied from the original. -/
def razorSecondPart (layer : VideoSegment) (time : ℚ) (suffix : String) :
    VideoSegment :=
  { layer with
    id := layer.id ++ "-split-" ++ suffix,
    start := time,
    duration := layer.duration - (time - layer.start) }

/-- C3: razor strictly inside the span replaces the found layer by its first
part (same id, duration `t - start`) and appends the second part (fresh id,
start `t`, the remaining duration), so the two spans tile the original span
with no gap or overlap, all other fields are copied, the new segment becomes
the selected one, and a cut outside the open span leaves the state
unchanged. -/
theorem handleRazor_split_spec (prev : EditingState) (layerId suffix : String)
    (t : ℚ) (layer : VideoSegment)
    (hfind : prev.layers.find? (fun l => l.id == layerId) = some layer)
    (h1 : layer.start < t) (h2 : t < layer.start + layer.duration) :
    (handleRazor t layerId suffix prev).layers
      = (prev.layers.map
          (fun l => if l.id == layerId then razorFirstPart layer t else l))
        ++ [razorSecondPart layer t suffix]
    ∧ (handleRazor t layerId suffix prev).layers.length = prev.layers.length + 1
    ∧ (razorFirstPart layer t).id = layer.id
    ∧ (razorFirstPart layer t).start = layer.start
    ∧ (razorFirstPart layer t).start + (razorFirstPart layer t).duration = t
    ∧ (razorSecondPart layer t suffix).start = t
    ∧ (razorSecondPart layer t suffix).start + (razorSecondPart layer t suffix).duration
        = layer.start + layer.duration
    ∧ (razorSecondPart layer t suffix).id ≠ layer.id
    ∧ (razorSecondPart layer t suffix).srcStartTime = layer.srcStartTime
    ∧ (razorSecondPart layer t suffix).track = layer.track
    ∧ (razorSecondPart layer t suffix).speed = layer.speed
    ∧ (razorSecondPart layer t suffix).animations = layer.animations
    ∧ (razorSecondPart layer t suffix).label = layer.label
    ∧ (handleRazor t layerId suffix prev).selectedLayerId
        = some (razorSecondPart layer t suffix).id
    ∧ ∀ u, (u ≤ layer.start ∨ layer.start + layer.duration ≤ u) →
        handleRazor u layerId suffix prev = prev := by
  have hin : ¬ (t ≤ layer.start ∨ layer.start + layer.duration ≤ t) := by
    push_neg
    exact ⟨h1, h2⟩
  have hmain : handleRazor t layerId suffix prev =
      { layers := (prev.layers.map
            (fun l => if l.id == layerId then razorFirstPart layer t else l))
          ++ [razorSecondPart layer t suffix],
        selectedLayerId := some (razorSecondPart layer t suffix).id } := by
    simp only [handleRazor, hfind]
    rw [if_neg hin]
    rfl
  refine ⟨by rw [hmain], ?_, rfl, rfl, by simp [razorFirstPart], rfl,
    by simp [razorSecondPart]; ring, ?_, rfl, rfl, rfl, rfl, rfl, by rw [hmain], ?_⟩
  · rw [hmain]
    simp
  · intro h
    have hlen := congrArg String.length h
    rw [razorSecondPart] at hlen
    simp only [String.length_append] at hlen
    have h7 : "-split-".length = 7 := rfl
    omega
  · intro u hu
    simp only [handleRazor, hfind]
    rw [if_pos hu]

/-- Witness for `handleRazor_split_spec` at a concrete one-layer state. -/
theorem handleRazor_split_spec_witness :
    ((⟨[⟨"a", .video, 0, 10, 0, "L", some 5, 1, 1, [], true, false⟩], none⟩ :
        EditingState).layers.find? (fun l => l.id == "a")
      = some ⟨"a", .video, 0, 10, 0, "L", some 5, 1, 1, [], true, false⟩)
    ∧ ((0:ℚ) < 4 ∧ (4:ℚ) < 0 + 10)
    ∧ (handleRazor 4 "a" "7"
        ⟨[⟨"a", .video, 0, 10, 0, "L", some 5, 1, 1, [], true, false⟩], none⟩).layers.length
      = 2 := by
  have h := handleRazor_split_spec
    ⟨[⟨"a", .video, 0, 10, 0, "L", some 5, 1, 1, [], true, false⟩], none⟩
    "a" "7" 4 ⟨"a", .video, 0, 10, 0, "L", some 5, 1, 1, [], true, false⟩
    (by with_unfolding_all decide) (by with_unfolding_all decide)
    (by with_unfolding_all decide)
  exact ⟨by with_unfolding_all decide,
    ⟨by with_unfolding_all decide, by with_unfolding_all decide⟩, h.2.1⟩

/-- C2 counterexample: splitting a segment with `sourceOffset` 5 at 4 s into
its 0–10 s span leaves both parts with `sourceOffset` 5; the second part does
not get `s0 + (atTime - start) = 9`. -/
theorem handleRazor_srcStartTime_not_contiguous :
    ((handleRazor 4 "a" "7"
        ⟨[⟨"a", .video, 0, 10, 0, "L", some 5, 1, 1, [], true, false⟩], none⟩).layers.map
      (fun l => l.srcStartTime)) = [some 5, some 5]
    ∧ ¬ (some ((5:ℚ) + (4 - 0)) = (some (5:ℚ) : Option ℚ)) := by
  with_unfolding_all decide

/-- C2 amended: for any segment and any `atTime` strictly inside its span,
the second segment produced by the split carries the original `sourceOffset`
unchanged (the source deliberately does not adjust the internal offset), so
the two parts share one `sourceOffset` instead of being contiguous. -/
theorem handleRazor_srcStartTime_copied (prev : EditingState)
    (layerId suffix : String) (t : ℚ) (layer : VideoSegment)
    (hfind : prev.layers.find? (fun l => l.id == layerId) = some layer)
    (h1 : layer.start < t) (h2 : t < layer.start + layer.duration) :
    (handleRazor t layerId suffix prev).layers.getLast?
      = some (razorSecondPart layer t suffix)
    ∧ (razorSecondPart layer t suffix).srcStartTime = layer.srcStartTime
    ∧ (razorFirstPart layer t).srcStartTime = layer.srcStartTime := by
  have hin : ¬ (t ≤ layer.start ∨ layer.start + layer.duration ≤ t) := by
    push_neg
    exact ⟨h1, h2⟩
  refine ⟨?_, rfl, rfl⟩
  simp only [handleRazor, hfind]
  rw [if_neg hin]
  simp [razorSecondPart]

/-- Witness for `handleRazor_srcStartTime_copied` at a concrete state. -/
theorem handleRazor_srcStartTime_copied_witness :
    ((⟨[⟨"a", .video, 0, 10, 0, "L", some 5, 1, 1, [], true, false⟩], none⟩ :
        EditingState).layers.find? (fun l => l.id == "a")
      = some ⟨"a", .video, 0, 10, 0, "L", some 5, 1, 1, [], true, false⟩)
    ∧ ((0:ℚ) < 4 ∧ (4:ℚ) < 0 + 10)
    ∧ (razorSecondPart ⟨"a", .video, 0, 10, 0, "L", some 5, 1, 1, [], true, false⟩
        4 "7").srcStartTime = some 5 := by
  have h := handleRazor_srcStartTime_copied
    ⟨[⟨"a", .video, 0, 10, 0, "L", some 5, 1, 1, [], true, false⟩], none⟩
    "a" "7" 4 ⟨"a", .video, 0, 10, 0, "L", some 5, 1, 1, [], true, false⟩
    (by with_unfolding_all decide) (by with_unfolding_all decide)
    (by with_unfolding_all decide)
  exact ⟨by with_unfolding_all decide,
    ⟨by with_unfolding_all decide, by with_unfolding_all decide⟩, h.2.1⟩

/-- C4: left-trimming to a target `t` in `[0, start + duration - 1/25]` whose
resulting source offset is nonnegative commits the update and preserves
`duration_new + (t - start_old) = duration_old` and
`sourceOffset_new = sourceOffset_old + (t - start_old)`; a target beyond the
duration floor is clamped to it, and a target whose clamped start would push
the source offset negative is rejected (no update). -/
theorem resizeLeft_trim_invariant (layer : VideoSegment) (t : ℚ)
    (h0 : 0 ≤ t)
    (h1 : t ≤ layer.start + layer.duration - 1/25)
    (h2 : 0 ≤ layer.srcStartTime.getD 0 + (t - layer.start)) :
    resizeLeft layer t = some { layer with
      start := t,
      duration := layer.duration - (t - layer.start),
      srcStartTime := some (layer.srcStartTime.getD 0 + (t - layer.start)) }
    ∧ (layer.duration - (t - layer.start)) + (t - layer.start) = layer.duration
    ∧ (∀ u, layer.start + layer.duration - 1/25 < u →
        resizeLeft layer u
          = resizeLeft layer (layer.start + layer.duration - 1/25))
    ∧ (∀ u, layer.srcStartTime.getD 0 +
          (min (max u 0) (layer.start + layer.duration - 1/25) - layer.start) < 0 →
        resizeLeft layer u = none) := by
  refine ⟨?_, by ring, ?_, ?_⟩
  · simp only [resizeLeft]
    rw [if_neg (not_lt.mpr h0), if_neg (not_lt.mpr h1), if_neg (not_lt.mpr h2)]
  · intro u hu
    simp only [resizeLeft]
    split_ifs <;> first | rfl | (exfalso; linarith)
  · intro u hu
    have hns : (if (if u < 0 then 0 else u) > layer.start + layer.duration - 1/25
          then layer.start + layer.duration - 1/25
          else (if u < 0 then 0 else u))
        = min (max u 0) (layer.start + layer.duration - 1/25) := by
      simp only [max_def, min_def]
      split_ifs <;> linarith
    simp only [resizeLeft]
    rw [hns, if_pos hu]

/-- Witness for `resizeLeft_trim_invariant` at a concrete layer. -/
theorem resizeLeft_trim_invariant_witness :
    ((0:ℚ) ≤ 1 ∧ (1:ℚ) ≤ 2 + 5 - 1/25
      ∧ (0:ℚ) ≤ (some (3:ℚ) : Option ℚ).getD 0 + (1 - 2))
    ∧ resizeLeft ⟨"a", .video, 2, 5, 0, "L", some 3, 1, 1, [], true, false⟩ 1
      = some ⟨"a", .video, 1, 5 - (1 - 2), 0, "L", some ((some (3:ℚ)).getD 0 + (1 - 2)),
          1, 1, [], true, false⟩ := by
  have h := resizeLeft_trim_invariant
    ⟨"a", .video, 2, 5, 0, "L", some 3, 1, 1, [], true, false⟩ 1
    (by with_unfolding_all decide) (by with_unfolding_all decide)
    (by with_unfolding_all decide)
  exact ⟨⟨by with_unfolding_all decide, by with_unfolding_all decide,
    by with_unfolding_all decide⟩, h.1⟩

/-- C8: writing a keyframe at local time `lt` removes every keyframe of the
same property within the 0.05 s epsilon of `lt` and appends the new one, so
afterwards exactly one keyframe of that property lies within 0.05 s of `lt`;
`addKeyframe` always writes, and `handlePropertyChange` writes whenever the
property is animated. -/
theorem writeKeyframe_unique_near (animations : List AnimationKeyframe)
    (propPath : String) (lt v : ℚ) (layer : VideoSegment) (currentTime : ℚ)
    (staticUpdate : VideoSegment → VideoSegment)
    (hanim : layer.animations.any (fun k => k.property == propPath) = true) :
    ((writeKeyframe animations propPath lt v).filter
        (fun k => k.property == propPath && decide (|k.time - lt| ≤ 1/20))).length = 1
    ∧ (addKeyframe layer currentTime propPath v).animations
        = writeKeyframe layer.animations propPath (currentTime - layer.start) v
    ∧ (handlePropertyChange layer currentTime propPath v staticUpdate).animations
        = writeKeyframe layer.animations propPath (currentTime - layer.start) v := by
  refine ⟨?_, rfl, ?_⟩
  · rw [writeKeyframe, List.filter_append]
    have hnil : (animations.filter
        (fun k => !(k.property == propPath) || decide ((1:ℚ)/20 < |k.time - lt|))).filter
          (fun k => k.property == propPath && decide (|k.time - lt| ≤ 1/20)) = [] := by
      rw [List.filter_filter]
      rw [List.filter_eq_nil_iff]
      intro k _
      by_cases hkp : (k.property == propPath) = true
      · simp only [hkp, Bool.not_true, Bool.false_or, Bool.true_and, Bool.and_eq_true,
          decide_eq_true_eq]
        rintro ⟨h1, h2⟩
        linarith
      · simp [hkp]
    rw [hnil]
    simp
  · rw [handlePropertyChange, if_pos hanim]

/-- Witness for `writeKeyframe_unique_near` at a concrete animated layer. -/
theorem writeKeyframe_unique_near_witness :
    ((⟨"a", .video, 0, 10, 0, "L", none, 1, 1, [⟨"p", 1, 0, .linear⟩], true,
        false⟩ : VideoSegment).animations.any (fun k => k.property == "p") = true)
    ∧ ((writeKeyframe [⟨"p", 1, 0, .linear⟩] "p" (1/100) 2).filter
        (fun k => k.property == "p" && decide (|k.time - 1/100| ≤ 1/20))).length = 1 := by
  have h := writeKeyframe_unique_near [⟨"p", 1, 0, .linear⟩] "p" (1/100) 2
    ⟨"a", .video, 0, 10, 0, "L", none, 1, 1, [⟨"p", 1, 0, .linear⟩], true, false⟩
    0 id (by with_unfolding_all decide)
  exact ⟨by with_unfolding_all decide, h.1⟩

/-- The `layers.forEach` of `getSnapTime` leaves the accumulator unchanged
when no boundary of a non-ignored layer is strictly closer than the running
minimum distance. -/
theorem snapFold_no_closer (targetTime : ℚ) (ignoreLayerId : Option String) :
    ∀ (layers : List VideoSegment) (acc : ℚ × ℚ),
      (∀ l ∈ layers, (some l.id == ignoreLayerId) = false →
        ¬(|targetTime - l.start| < acc.2)
        ∧ ¬(|targetTime - (l.start + l.duration)| < acc.2)) →
      layers.foldl
        (fun acc l =>
          if some l.id == ignoreLayerId then acc else snapToLayer targetTime acc l)
        acc = acc
  | [], acc, _ => rfl
  | l :: ls, acc, h => by
    rw [List.foldl_cons]
    by_cases hig : (some l.id == ignoreLayerId) = true
    · rw [if_pos hig]
      exact snapFold_no_closer targetTime ignoreLayerId ls acc
        (fun m hm => h m (List.mem_cons_of_mem l hm))
    · have hig' : (some l.id == ignoreLayerId) = false := by
        simpa using hig
      obtain ⟨hs, he⟩ := h l (List.mem_cons_self l ls) hig'
      rw [if_neg (by simp [hig'])]
      have hsnap : snapToLayer targetTime acc l = acc := by
        rw [snapToLayer]
        rw [if_neg hs, if_neg he]
      rw [hsnap]
      exact snapFold_no_closer targetTime ignoreLayerId ls acc
        (fun m hm => h m (List.mem_cons_of_mem l hm))

/-- C9: with snapping on, playhead 5.0 s and zoom 50 px/s (snap threshold
10 px = 0.2 s), a raw target of 5.15 s snaps to exactly 5.0 s provided no
other segment boundary is strictly closer to 5.15 s than the playhead
(distance 0.15 s); and a candidate with neither playhead nor any boundary
within the threshold is returned unsnapped. -/
theorem getSnapTime_spec :
    (∀ (layers : List VideoSegment) (ignoreLayerId : Option String),
      (∀ l ∈ layers, (some l.id == ignoreLayerId) = false →
        ¬(|(103/20 : ℚ) - l.start| < 3/20)
        ∧ ¬(|(103/20 : ℚ) - (l.start + l.duration)| < 3/20)) →
      getSnapTime true 50 5 layers (103/20) ignoreLayerId = 5)
    ∧ (∀ (zoomLevel currentTime targetTime : ℚ) (layers : List VideoSegment)
        (ignoreLayerId : Option String),
      ¬(|targetTime - currentTime| < 10 / zoomLevel) →
      (∀ l ∈ layers, (some l.id == ignoreLayerId) = false →
        ¬(|targetTime - l.start| < 10 / zoomLevel)
        ∧ ¬(|targetTime - (l.start + l.duration)| < 10 / zoomLevel)) →
      getSnapTime true zoomLevel currentTime layers targetTime ignoreLayerId
        = targetTime) := by
  constructor
  · intro layers ignoreLayerId h
    have habs : |(103/20 : ℚ) - 5| = 3/20 := by
      rw [show (103/20 : ℚ) - 5 = 3/20 by norm_num]
      exact abs_of_pos (by norm_num)
    simp only [getSnapTime, Bool.not_true, Bool.false_eq_true, if_false]
    rw [if_pos (by rw [habs]; norm_num), habs]
    rw [snapFold_no_closer (103/20) ignoreLayerId layers (5, 3/20) h]
  · intro zoomLevel currentTime targetTime layers ignoreLayerId hcur h
    simp only [getSnapTime, Bool.not_true, Bool.false_eq_true, if_false]
    rw [if_neg hcur]
    rw [snapFold_no_closer targetTime ignoreLayerId layers
      (targetTime, 10 / zoomLevel) h]

/-- Witness for `getSnapTime_spec` with no other layers. -/
theorem getSnapTime_spec_witness :
    (∀ l ∈ ([] : List VideoSegment), (some l.id == (none : Option String)) = false →
      ¬(|(103/20 : ℚ) - l.start| < 3/20)
      ∧ ¬(|(103/20 : ℚ) - (l.start + l.duration)| < 3/20))
    ∧ getSnapTime true 50 5 [] (103/20) none = 5 := by
  exact ⟨by simp, getSnapTime_spec.1 [] none (by simp)⟩

/-! ## Interpolation lemmas -/

instance : IsTotal AnimationKeyframe (fun a b => a.time ≤ b.time) :=
  ⟨fun a b => le_total a.time b.time⟩

instance : IsTrans AnimationKeyframe (fun a b => a.time ≤ b.time) :=
  ⟨fun _ _ _ hab hbc => le_trans hab hbc⟩

/-- The comparator sort of `getInterpolatedValue` yields a time-sorted list. -/
theorem sortKeyframes_sorted (ks : List AnimationKeyframe) :
    List.Sorted (fun a b => a.time ≤ b.time) (sortKeyframes ks) :=
  List.sorted_insertionSort _ ks

/-- Walking past keyframes whose times are at most `lt` only moves the
previous-keyframe register to the last of them. -/
theorem interpWalk_skip (lt : ℚ) :
    ∀ (mid : List AnimationKeyframe) (p : AnimationKeyframe)
      (rest : List AnimationKeyframe),
      (∀ k ∈ mid, k.time ≤ lt) →
      interpWalk lt p (mid ++ rest) = interpWalk lt (mid.getLastD p) rest
  | [], p, rest, _ => rfl
  | m :: ms, p, rest, h => by
    rw [List.cons_append, interpWalk,
      if_neg (not_lt.mpr (h m (List.mem_cons_self m ms)))]
    rw [interpWalk_skip lt ms m rest (fun k hk => h k (List.mem_cons_of_mem m hk))]
    rw [List.getLastD_cons]

/-- In a time-sorted list the last keyframe is no earlier than the head of
its final cons cell; in particular it is later than `lt` when the cons head
is. -/
theorem getLast_time_gt (lt : ℚ) (l1 : List AnimationKeyframe)
    (nk : AnimationKeyframe) (post : List AnimationKeyframe)
    (hs : List.Sorted (fun a b => a.time ≤ b.time) (l1 ++ nk :: post))
    (hlt : lt < nk.time) (hne : l1 ++ nk :: post ≠ []) :
    lt < ((l1 ++ nk :: post).getLast hne).time := by
  have hne2 : (nk :: post) ≠ [] := List.cons_ne_nil nk post
  have heq : (l1 ++ nk :: post).getLast hne = (nk :: post).getLast hne2 := by
    have h1 := List.getLast?_eq_getLast (l1 ++ nk :: post) hne
    have h2 := List.getLast?_eq_getLast (nk :: post) hne2
    have h3 : (l1 ++ nk :: post).getLast? = (nk :: post).getLast? :=
      List.getLast?_append_of_ne_nil l1 hne2
    rw [h1, h2] at h3
    exact Option.some_injective _ h3
  rw [heq]
  have hmem : (nk :: post).getLast hne2 ∈ nk :: post := List.getLast_mem hne2
  have hpw : List.Pairwise (fun a b => a.time ≤ b.time) (nk :: post) :=
    (List.pairwise_append.mp hs).2.1
  rcases List.mem_cons.mp hmem with h | h
  · rw [h]
    exact hlt
  · exact lt_of_lt_of_le hlt ((List.pairwise_cons.mp hpw).1 _ h)

/-- Between two bracketing keyframes of the sorted, filtered animation list,
`getInterpolatedValue` interpolates exactly that pair. -/
theorem getInterpolatedValue_bracket (layer : VideoSegment)
    (propertyPath : String) (defaultValue currentTime : ℚ)
    (pre post : List AnimationKeyframe) (prevKey nextKey : AnimationKeyframe)
    (hks : sortKeyframes (layer.animations.filter
        (fun k => k.property == propertyPath)) = pre ++ prevKey :: nextKey :: post)
    (hprev : prevKey.time < currentTime - layer.start)
    (hnext : currentTime - layer.start < nextKey.time) :
    getInterpolatedValue layer propertyPath defaultValue currentTime
      = lerpKeys prevKey nextKey (currentTime - layer.start) := by
  have hsorted : List.Sorted (fun a b => a.time ≤ b.time)
      (pre ++ prevKey :: nextKey :: post) := hks ▸ sortKeyframes_sorted _
  have hpre_le : ∀ k ∈ pre, k.time ≤ prevKey.time := by
    intro k hk
    exact (List.pairwise_append.mp hsorted).2.2 k hk prevKey
      (List.mem_cons_self _ _)
  cases pre with
  | nil =>
    have hlast := getLast_time_gt (currentTime - layer.start)
      [prevKey] nextKey post (by simpa using hsorted) hnext
      (by simp)
    simp only [List.nil_append] at hks hlast ⊢
    simp only [getInterpolatedValue, hks]
    rw [if_neg (not_le.mpr hprev)]
    rw [if_neg (not_le.mpr (by simpa using hlast))]
    rw [interpWalk, if_pos hnext]
  | cons q qs =>
    have hq_lt : q.time ≤ prevKey.time := hpre_le q (List.mem_cons_self q qs)
    have hmid : ∀ k ∈ qs ++ [prevKey], k.time ≤ currentTime - layer.start := by
      intro k hk
      rcases List.mem_append.mp hk with h | h
      · exact le_of_lt (lt_of_le_of_lt
          (hpre_le k (List.mem_cons_of_mem q h)) hprev)
      · rw [List.mem_singleton.mp h]
        exact le_of_lt hprev
    have hshape : (q :: qs) ++ prevKey :: nextKey :: post
        = q :: ((qs ++ [prevKey]) ++ nextKey :: post) := by
      simp
    have hlast := getLast_time_gt (currentTime - layer.start)
      (q :: qs ++ [prevKey]) nextKey post (by simpa using hsorted) hnext
      (by simp)
    rw [hshape] at hks
    simp only [getInterpolatedValue, hks]
    rw [if_neg (not_le.mpr (lt_of_le_of_lt hq_lt hprev))]
    rw [if_neg (not_le.mpr (by simpa using hlast))]
    rw [interpWalk_skip (currentTime - layer.start) (qs ++ [prevKey]) q
      (nextKey :: post) hmid]
    rw [List.getLastD_concat]
    rw [interpWalk, if_pos hnext]

/-- C5: strictly between two bracketing keyframes, the engine applies the
easing named on the next keyframe to the linear ratio — `linear` unchanged,
`easeIn` cubes it, `easeOut` maps it to `1 - (1-r)^3`, `bezier` to the
piecewise S-curve, `step` forces progress 0 so the previous value is held —
and returns `prev.value + (next.value - prev.value) * easedRatio`. -/
theorem getInterpolatedValue_easing_spec (layer : VideoSegment)
    (propertyPath : String) (defaultValue currentTime : ℚ)
    (pre post : List AnimationKeyframe) (prevKey nextKey : AnimationKeyframe)
    (hks : sortKeyframes (layer.animations.filter
        (fun k => k.property == propertyPath)) = pre ++ prevKey :: nextKey :: post)
    (hprev : prevKey.time < currentTime - layer.start)
    (hnext : currentTime - layer.start < nextKey.time) :
    getInterpolatedValue layer propertyPath defaultValue currentTime
      = prevKey.value + (nextKey.value - prevKey.value) *
          applyEasing nextKey.easing
            (((currentTime - layer.start) - prevKey.time)
              / (nextKey.time - prevKey.time))
    ∧ (∀ r : ℚ, applyEasing Easing.linear r = r)
    ∧ (∀ r : ℚ, applyEasing Easing.easeIn r = r ^ 3)
    ∧ (∀ r : ℚ, applyEasing Easing.easeOut r = 1 - (1 - r) ^ 3)
    ∧ (∀ r : ℚ, applyEasing Easing.bezier r
        = if r < 1/2 then 2 * r ^ 2 else 1 - (-2 * r + 2) ^ 2 / 2)
    ∧ (∀ r : ℚ, applyEasing Easing.step r = 0)
    ∧ (nextKey.easing = Easing.step →
        getInterpolatedValue layer propertyPath defaultValue currentTime
          = prevKey.value) := by
  have hmain := getInterpolatedValue_bracket layer propertyPath defaultValue
    currentTime pre post prevKey nextKey hks hprev hnext
  refine ⟨by rw [hmain]; rfl, fun r => rfl, fun r => by rw [applyEasing]; ring,
    fun r => rfl, fun r => by rw [applyEasing]; ring_nf, fun r => rfl, ?_⟩
  · intro hstep
    rw [hmain, lerpKeys, hstep]
    simp [applyEasing]

/-- Witness for `getInterpolatedValue_easing_spec` on a two-keyframe layer
evaluated a quarter of the way between the keyframes. -/
theorem getInterpolatedValue_easing_spec_witness :
    (sortKeyframes ((⟨"a", .video, 0, 10, 0, "L", none, 1, 1,
        [⟨"p", 0, 0, .linear⟩, ⟨"p", 10, 1, .easeIn⟩], true, false⟩ :
          VideoSegment).animations.filter (fun k => k.property == "p"))
      = [] ++ (⟨"p", 0, 0, .linear⟩ : AnimationKeyframe)
          :: (⟨"p", 10, 1, .easeIn⟩ : AnimationKeyframe) :: [])
    ∧ ((⟨"p", 0, 0, .linear⟩ : AnimationKeyframe).time < (1/4 : ℚ) - 0
        ∧ (1/4 : ℚ) - 0 < (⟨"p", 10, 1, .easeIn⟩ : AnimationKeyframe).time)
    ∧ getInterpolatedValue ⟨"a", .video, 0, 10, 0, "L", none, 1, 1,
        [⟨"p", 0, 0, .linear⟩, ⟨"p", 10, 1, .easeIn⟩], true, false⟩ "p" 0 (1/4)
      = 0 + (10 - 0) * applyEasing Easing.easeIn (((1/4 : ℚ) - 0 - 0) / (1 - 0)) := by
  have h := getInterpolatedValue_easing_spec
    ⟨"a", .video, 0, 10, 0, "L", none, 1, 1,
      [⟨"p", 0, 0, .linear⟩, ⟨"p", 10, 1, .easeIn⟩], true, false⟩
    "p" 0 (1/4) [] [] ⟨"p", 0, 0, .linear⟩ ⟨"p", 10, 1, .easeIn⟩
    (by with_unfolding_all decide) (by with_unfolding_all decide)
    (by with_unfolding_all decide)
  exact ⟨by with_unfolding_all decide,
    ⟨by with_unfolding_all decide, by with_unfolding_all decide⟩, h.1⟩

/-- Sorting a two-keyframe list whose first key is no later than the second
keeps the order. -/
theorem sortKeyframes_pair (a b : AnimationKeyframe) (h : a.time ≤ b.time) :
    sortKeyframes [a, b] = [a, b] := by
  simp [sortKeyframes, List.insertionSort, List.orderedInsert, h]

/-- C7: with exactly two keyframes `(t0, v0, linear)` and `(t1, v1, _)` on a
property and the applied (next keyframe's) easing `linear`, evaluation at
the midpoint `t0 + (t1 - t0)/2` returns `(v0 + v1)/2`. -/
theorem getInterpolatedValue_linear_midpoint (layer : VideoSegment)
    (propPath : String) (defaultValue t0 v0 t1 v1 : ℚ) (k1 : AnimationKeyframe)
    (hfilter : layer.animations.filter (fun k => k.property == propPath)
      = [⟨propPath, v0, t0, Easing.linear⟩, k1])
    (ht1 : k1.time = t1) (hv1 : k1.value = v1)
    (ht : t0 < t1) (hlin : k1.easing = Easing.linear) :
    getInterpolatedValue layer propPath defaultValue
      (layer.start + (t0 + (t1 - t0) / 2)) = (v0 + v1) / 2 := by
  have hks : sortKeyframes (layer.animations.filter
      (fun k => k.property == propPath))
      = [] ++ (⟨propPath, v0, t0, Easing.linear⟩ : AnimationKeyframe) :: k1 :: [] := by
    rw [hfilter, List.nil_append]
    exact sortKeyframes_pair _ _ (by rw [ht1]; exact le_of_lt ht)
  have hlt : layer.start + (t0 + (t1 - t0) / 2) - layer.start
      = t0 + (t1 - t0) / 2 := by ring
  have hmain := getInterpolatedValue_bracket layer propPath defaultValue
    (layer.start + (t0 + (t1 - t0) / 2)) [] []
    ⟨propPath, v0, t0, Easing.linear⟩ k1 hks
    (by rw [hlt]; show t0 < t0 + (t1 - t0) / 2; linarith)
    (by rw [hlt, ht1]; linarith)
  rw [hmain, lerpKeys, hlin, hlt, ht1, hv1]
  simp only [applyEasing]
  have hne : t1 - t0 ≠ 0 := sub_ne_zero.mpr (ne_of_gt ht)
  field_simp
  ring

/-- Witness for `getInterpolatedValue_linear_midpoint`: two linear keyframes
`(0, 0)` and `(1, 10)` on a layer starting at 2 s, evaluated at local time
0.5, give 5. -/
theorem getInterpolatedValue_linear_midpoint_witness :
    ((⟨"a", .video, 2, 10, 0, "L", none, 1, 1,
        [⟨"p", 0, 0, .linear⟩, ⟨"p", 10, 1, .linear⟩], true, false⟩ :
          VideoSegment).animations.filter (fun k => k.property == "p")
      = [⟨"p", 0, 0, Easing.linear⟩, ⟨"p", 10, 1, Easing.linear⟩])
    ∧ ((0:ℚ) < 1)
    ∧ getInterpolatedValue ⟨"a", .video, 2, 10, 0, "L", none, 1, 1,
        [⟨"p", 0, 0, .linear⟩, ⟨"p", 10, 1, .linear⟩], true, false⟩ "p" 0
        (2 + (0 + (1 - 0) / 2)) = (0 + 10) / 2 := by
  have h := getInterpolatedValue_linear_midpoint
    ⟨"a", .video, 2, 10, 0, "L", none, 1, 1,
      [⟨"p", 0, 0, .linear⟩, ⟨"p", 10, 1, .linear⟩], true, false⟩
    "p" 0 0 0 1 10 ⟨"p", 10, 1, .linear⟩
    (by with_unfolding_all decide) rfl rfl (by with_unfolding_all decide) rfl
  exact ⟨by with_unfolding_all decide, by with_unfolding_all decide, h⟩

/-! ## Silence segmenter theorems -/

set_option maxRecDepth 100000 in
/-- C1 failing input: 1 s of sound, one 50 ms quiet window, then sound to
2 s, at 20 Hz (window = 1 sample), threshold 0.02, `minSilenceDuration`
0.4 s.  Only 0.05 s of silence has elapsed at the quiet window, yet the
code closes the span there (its `silenceStart` still holds the pre-speech
value 0, so it compares `1.0 - 0 > 0.4`), emitting two segments instead of
keeping the span open through the brief dip. -/
theorem detectSilenceAndCut_stale_silence_eval :
    detectSilenceAndCut (List.replicate 20 1 ++ [0] ++ List.replicate 19 1)
      20 (1/50) (2/5) = [⟨1, 0⟩, ⟨21/20, 19/20⟩]
    ∧ (1/20 : ℚ) ≤ 2/5 := by
  constructor
  · with_unfolding_all decide
  · norm_num

/-- Closing a span inside `detectStep` only ever appends a segment longer
than the 0.5 s floor. -/
theorem detectStep_segments_floor (sampleRate : ℚ) (windowSize : ℕ)
    (threshold minSilenceDuration : ℚ) (i : ℕ) (chunk : List ℚ)
    (st : DetectState) (seg : CutSegment)
    (hseg : seg ∈ (detectStep sampleRate windowSize threshold minSilenceDuration
      i chunk st).segments) :
    seg ∈ st.segments ∨ 1/2 < seg.duration := by
  simp only [detectStep] at hseg
  split_ifs at hseg with h1 h2 h3 h4
  all_goals try exact Or.inl hseg
  simp only [List.mem_append, List.mem_singleton] at hseg
  rcases hseg with h | h
  · exact Or.inl h
  · right
    rw [h]
    show (1:ℚ)/2 < (i : ℚ) / sampleRate - st.speakStart
    assumption

/-- Every segment in the loop state's list either was there initially or
passed the 0.5 s floor when its span was closed. -/
theorem detectLoop_segments_floor (sampleRate : ℚ) (windowSize : ℕ)
    (threshold minSilenceDuration : ℚ) :
    ∀ (fuel : ℕ) (samples : List ℚ) (i : ℕ) (st : DetectState) (seg : CutSegment),
      seg ∈ (detectLoop sampleRate windowSize threshold minSilenceDuration
        fuel samples i st).segments →
      seg ∈ st.segments ∨ 1/2 < seg.duration := by
  intro fuel
  induction fuel with
  | zero =>
    intro samples i st seg hseg
    cases samples with
    | nil => exact Or.inl hseg
    | cons x xs => exact Or.inl hseg
  | succ n ih =>
    intro samples i st seg hseg
    cases samples with
    | nil => exact Or.inl hseg
    | cons x xs =>
      rw [detectLoop] at hseg
      rcases ih _ _ _ _ hseg with h | h
      · exact detectStep_segments_floor _ _ _ _ _ _ _ _ h
      · exact Or.inr h

set_option maxRecDepth 200000 in
/-- C10: the 0.5 s anti-glitch floor applies only to spans closed by the
loop; the final flush at end of input is appended whenever the state is
still speaking, with no duration check, so a short trailing burst yields a
segment (duration 0.35 s below) that an interior burst of the same length
does not. -/
theorem detectSilenceAndCut_trailing_flush (samples : List ℚ)
    (sampleRate threshold minSilenceDuration : ℚ)
    (hw : 0 < ⌊sampleRate * (1/20 : ℚ)⌋₊) :
    (detectSilenceAndCut samples sampleRate threshold minSilenceDuration
      = (detectLoop sampleRate ⌊sampleRate * (1/20 : ℚ)⌋₊ threshold
          minSilenceDuration samples.length samples 0 ⟨false, 0, 0, []⟩).segments
        ++ (if (detectLoop sampleRate ⌊sampleRate * (1/20 : ℚ)⌋₊ threshold
              minSilenceDuration samples.length samples 0 ⟨false, 0, 0, []⟩).isSpeaking
            then [⟨(samples.length : ℚ) / sampleRate -
                (detectLoop sampleRate ⌊sampleRate * (1/20 : ℚ)⌋₊ threshold
                  minSilenceDuration samples.length samples 0
                  ⟨false, 0, 0, []⟩).speakStart,
                (detectLoop sampleRate ⌊sampleRate * (1/20 : ℚ)⌋₊ threshold
                  minSilenceDuration samples.length samples 0
                  ⟨false, 0, 0, []⟩).speakStart⟩]
            else []))
    ∧ (∀ seg ∈ (detectLoop sampleRate ⌊sampleRate * (1/20 : ℚ)⌋₊ threshold
          minSilenceDuration samples.length samples 0 ⟨false, 0, 0, []⟩).segments,
        1/2 < seg.duration)
    ∧ detectSilenceAndCut (List.replicate 30 0 ++ List.replicate 5 1)
        20 (1/50) (2/5) = [⟨7/20, 7/5⟩]
    ∧ detectSilenceAndCut
        (List.replicate 30 0 ++ List.replicate 5 1 ++ List.replicate 30 0)
        20 (1/50) (2/5) = [] := by
  refine ⟨?_, ?_, ?_, ?_⟩
  · simp only [detectSilenceAndCut]
    rw [if_pos hw]
  · intro seg hseg
    rcases detectLoop_segments_floor sampleRate _ threshold minSilenceDuration
      samples.length samples 0 ⟨false, 0, 0, []⟩ seg hseg with h | h
    · simp at h
    · exact h
  · with_unfolding_all decide
  · with_unfolding_all decide

set_option maxRecDepth 200000 in
/-- Witness for `detectSilenceAndCut_trailing_flush` at the trailing-burst
input itself. -/
theorem detectSilenceAndCut_trailing_flush_witness :
    (0 < ⌊(20 : ℚ) * (1/20 : ℚ)⌋₊)
    ∧ detectSilenceAndCut (List.replicate 30 0 ++ List.replicate 5 1)
        20 (1/50) (2/5) = [⟨7/20, 7/5⟩] := by
  have h := detectSilenceAndCut_trailing_flush
    (List.replicate 30 0 ++ List.replicate 5 1) 20 (1/50) (2/5)
    (by with_unfolding_all decide)
  exact ⟨by with_unfolding_all decide, h.2.2.1⟩

/-! ## Window-level evaluation lemmas for the segmenter -/

/-- The squared-sample sum of a constant window. -/
theorem sum_sq_replicate (w : ℕ) (x : ℚ) :
    ((List.replicate w x).map (fun a => a * a)).sum = (w : ℚ) * (x * x) := by
  rw [List.map_replicate, List.sum_replicate, nsmul_eq_mul]

/-- One full window of the loop: consume `windowSize` samples and one unit
of fuel, and feed the window to `detectStep`. -/
theorem detectLoop_window (sampleRate : ℚ) (windowSize : ℕ) (hw : 0 < windowSize)
    (threshold minSilenceDuration : ℚ) (x : ℚ) (rest : List ℚ) (fuel i : ℕ)
    (st : DetectState) :
    detectLoop sampleRate windowSize threshold minSilenceDuration
      (fuel + 1) (List.replicate windowSize x ++ rest) i st
      = detectLoop sampleRate windowSize threshold minSilenceDuration
        fuel rest (i + windowSize)
        (detectStep sampleRate windowSize threshold minSilenceDuration i
          (List.replicate windowSize x) st) := by
  have htake : (List.replicate windowSize x ++ rest).take windowSize
      = List.replicate windowSize x := by
    have h := List.take_left (List.replicate windowSize x) rest
    rwa [List.length_replicate] at h
  have hdrop : (List.replicate windowSize x ++ rest).drop windowSize = rest := by
    have h := List.drop_left (List.replicate windowSize x) rest
    rwa [List.length_replicate] at h
  cases windowSize with
  | zero => exact absurd hw (by omega)
  | succ w =>
    have hcons : List.replicate (w + 1) x ++ rest
        = x :: (List.replicate w x ++ rest) := by
      simp [List.replicate_succ]
    rw [hcons, detectLoop, ← hcons, hdrop, htake]

/-- A loud window while already speaking leaves the state unchanged. -/
theorem detectStep_loud_speaking (sampleRate : ℚ) (windowSize : ℕ)
    (threshold minSilenceDuration : ℚ) (i : ℕ) (chunk : List ℚ)
    (st : DetectState)
    (hloud : (chunk.map (fun a => a * a)).sum / (windowSize : ℚ) > threshold ^ 2)
    (hs : st.isSpeaking = true) :
    detectStep sampleRate windowSize threshold minSilenceDuration i chunk st
      = st := by
  simp [detectStep, hloud, hs]

/-- A loud window while silent starts a span with a 0.1 s pre-roll. -/
theorem detectStep_loud_notSpeaking (sampleRate : ℚ) (windowSize : ℕ)
    (threshold minSilenceDuration : ℚ) (i : ℕ) (chunk : List ℚ)
    (st : DetectState)
    (hloud : (chunk.map (fun a => a * a)).sum / (windowSize : ℚ) > threshold ^ 2)
    (hs : st.isSpeaking = false) :
    detectStep sampleRate windowSize threshold minSilenceDuration i chunk st
      = { st with isSpeaking := true,
                  speakStart := max 0 ((i : ℚ) / sampleRate - 1/10) } := by
  simp [detectStep, hloud, hs]

/-- A quiet window while silent records the window time in `silenceStart`. -/
theorem detectStep_quiet_notSpeaking (sampleRate : ℚ) (windowSize : ℕ)
    (threshold minSilenceDuration : ℚ) (i : ℕ) (chunk : List ℚ)
    (st : DetectState)
    (hquiet : ¬ ((chunk.map (fun a => a * a)).sum / (windowSize : ℚ) > threshold ^ 2))
    (hs : st.isSpeaking = false) :
    detectStep sampleRate windowSize threshold minSilenceDuration i chunk st
      = { st with silenceStart := (i : ℚ) / sampleRate } := by
  simp [detectStep, hquiet, hs]

/-- A quiet window while speaking with the gate and the floor both passed
closes the span and appends it. -/
theorem detectStep_quiet_speaking_close (sampleRate : ℚ) (windowSize : ℕ)
    (threshold minSilenceDuration : ℚ) (i : ℕ) (chunk : List ℚ)
    (st : DetectState)
    (hquiet : ¬ ((chunk.map (fun a => a * a)).sum / (windowSize : ℚ) > threshold ^ 2))
    (hs : st.isSpeaking = true)
    (hgate : (i : ℚ) / sampleRate - st.silenceStart > minSilenceDuration)
    (hfloor : (i : ℚ) / sampleRate - st.speakStart > 1/2) :
    detectStep sampleRate windowSize threshold minSilenceDuration i chunk st
      = { st with
          isSpeaking := false,
          segments :=
            st.segments ++ [⟨(i : ℚ) / sampleRate - st.speakStart, st.speakStart⟩] } := by
  simp [detectStep, hquiet, hs, hgate, hfloor]
  linarith

/-- A run of identical windows that each leave the state unchanged only
advances the loop position. -/
theorem detectLoop_phase_const (sampleRate : ℚ) (windowSize : ℕ)
    (hw : 0 < windowSize) (threshold minSilenceDuration : ℚ) (x : ℚ)
    (st : DetectState)
    (hstep : ∀ i, detectStep sampleRate windowSize threshold minSilenceDuration
      i (List.replicate windowSize x) st = st) :
    ∀ (k : ℕ) (rest : List ℚ) (fuel i : ℕ),
      detectLoop sampleRate windowSize threshold minSilenceDuration
        (fuel + k) (List.replicate (k * windowSize) x ++ rest) i st
        = detectLoop sampleRate windowSize threshold minSilenceDuration
          fuel rest (i + k * windowSize) st
  | 0, rest, fuel, i => by simp
  | k + 1, rest, fuel, i => by
    have hsplit : List.replicate ((k + 1) * windowSize) x
        = List.replicate windowSize x ++ List.replicate (k * windowSize) x := by
      rw [← List.replicate_add]
      congr 1
      ring
    rw [hsplit, List.append_assoc,
      show fuel + (k + 1) = (fuel + k) + 1 by omega,
      detectLoop_window sampleRate windowSize hw threshold minSilenceDuration
        x _ (fuel + k) i st,
      hstep i,
      detectLoop_phase_const sampleRate windowSize hw threshold
        minSilenceDuration x st hstep k rest fuel (i + windowSize)]
    congr 1
    ring

/-- A run of `k + 1` quiet windows while silent moves `silenceStart` to the
last window's start time and advances the loop position. -/
theorem detectLoop_phase_silence (sampleRate : ℚ) (windowSize : ℕ)
    (hw : 0 < windowSize) (threshold minSilenceDuration : ℚ) (z : ℚ)
    (hquiet : ¬ (((List.replicate windowSize z).map (fun a => a * a)).sum
      / (windowSize : ℚ) > threshold ^ 2)) :
    ∀ (k : ℕ) (rest : List ℚ) (fuel i : ℕ) (st : DetectState),
      st.isSpeaking = false →
      detectLoop sampleRate windowSize threshold minSilenceDuration
        (fuel + (k + 1)) (List.replicate ((k + 1) * windowSize) z ++ rest) i st
        = detectLoop sampleRate windowSize threshold minSilenceDuration
          fuel rest (i + (k + 1) * windowSize)
          { st with silenceStart := ((i + k * windowSize : ℕ) : ℚ) / sampleRate }
  | 0, rest, fuel, i, st, hs => by
    rw [show (0 + 1) * windowSize = windowSize by ring,
      detectLoop_window sampleRate windowSize hw threshold minSilenceDuration
        z rest fuel i st,
      detectStep_quiet_notSpeaking sampleRate windowSize threshold
        minSilenceDuration i _ st hquiet hs]
    simp
  | k + 1, rest, fuel, i, st, hs => by
    have hsplit : List.replicate ((k + 2) * windowSize) z
        = List.replicate windowSize z ++ List.replicate ((k + 1) * windowSize) z := by
      rw [← List.replicate_add]
      congr 1
      ring
    rw [hsplit, List.append_assoc,
      show fuel + (k + 2) = (fuel + (k + 1)) + 1 by omega,
      detectLoop_window sampleRate windowSize hw threshold minSilenceDuration
        z _ (fuel + (k + 1)) i st,
      detectStep_quiet_notSpeaking sampleRate windowSize threshold
        minSilenceDuration i _ st hquiet hs,
      detectLoop_phase_silence sampleRate windowSize hw threshold
        minSilenceDuration z hquiet k rest fuel (i + windowSize)
        { st with silenceStart := (i : ℚ) / sampleRate } hs]
    have h1 : i + windowSize + (k + 1) * windowSize = i + (k + 2) * windowSize := by
      ring
    have h2 : i + windowSize + k * windowSize = i + (k + 1) * windowSize := by
      ring
    rw [h1, h2]

/-- The spec's end-to-end example waveform: 3 s at 1000 Hz, amplitude 0.5 on
0.0–1.0 s, silence on 1.0–1.6 s, amplitude 0.5 on 1.6–3.0 s, threshold 0.02,
`minSilenceDuration` 0.4 s.  The run yields exactly two spans: duration 1.0 s
from source offset 0, and duration 1.5 s from source offset 1.5 s (the 1.4 s
of sound plus the 0.1 s attack pre-roll). -/
theorem detectSilenceAndCut_example_run :
    detectSilenceAndCut
      (List.replicate 1000 (1/2 : ℚ) ++ List.replicate 600 (0 : ℚ)
        ++ List.replicate 1400 (1/2 : ℚ))
      1000 (1/50) (2/5) = [⟨1, 0⟩, ⟨3/2, 3/2⟩] := by
  have hloud : ((List.replicate 50 (1/2 : ℚ)).map (fun a => a * a)).sum
      / ((50 : ℕ) : ℚ) > (1/50 : ℚ) ^ 2 := by
    rw [sum_sq_replicate]
    norm_num
  have hquiet : ¬ (((List.replicate 50 (0 : ℚ)).map (fun a => a * a)).sum
      / ((50 : ℕ) : ℚ) > (1/50 : ℚ) ^ 2) := by
    rw [sum_sq_replicate]
    norm_num
  have h1 : detectLoop 1000 50 (1/50) (2/5) 3000
      (List.replicate 1000 (1/2 : ℚ)
        ++ (List.replicate 600 (0 : ℚ) ++ List.replicate 1400 (1/2 : ℚ)))
      0 ⟨false, 0, 0, []⟩
      = detectLoop 1000 50 (1/50) (2/5) 2999
        (List.replicate 950 (1/2 : ℚ)
          ++ (List.replicate 600 (0 : ℚ) ++ List.replicate 1400 (1/2 : ℚ)))
        50 ⟨true, 0, 0, []⟩ := by
    rw [show List.replicate 1000 (1/2 : ℚ)
        = List.replicate 50 (1/2 : ℚ) ++ List.replicate 950 (1/2 : ℚ) from by
      rw [← List.replicate_add]]
    rw [List.append_assoc, show (3000 : ℕ) = 2999 + 1 from by norm_num]
    rw [detectLoop_window 1000 50 (by norm_num) (1/50) (2/5) (1/2)
      (List.replicate 950 (1/2 : ℚ)
        ++ (List.replicate 600 (0 : ℚ) ++ List.replicate 1400 (1/2 : ℚ)))
      2999 0 ⟨false, 0, 0, []⟩]
    rw [detectStep_loud_notSpeaking 1000 50 (1/50) (2/5) 0
      (List.replicate 50 (1/2 : ℚ)) ⟨false, 0, 0, []⟩ hloud rfl]
    norm_num [max_def]
  have hstepA : ∀ i, detectStep 1000 50 (1/50) (2/5) i
      (List.replicate 50 (1/2 : ℚ)) ⟨true, 0, 0, []⟩ = ⟨true, 0, 0, []⟩ :=
    fun i => detectStep_loud_speaking 1000 50 (1/50) (2/5) i _ _ hloud rfl
  have h2 : detectLoop 1000 50 (1/50) (2/5) 2999
      (List.replicate 950 (1/2 : ℚ)
        ++ (List.replicate 600 (0 : ℚ) ++ List.replicate 1400 (1/2 : ℚ)))
      50 ⟨true, 0, 0, []⟩
      = detectLoop 1000 50 (1/50) (2/5) 2980
        (List.replicate 600 (0 : ℚ) ++ List.replicate 1400 (1/2 : ℚ)) 1000
        ⟨true, 0, 0, []⟩ := by
    rw [show List.replicate 950 (1/2 : ℚ) = List.replicate (19 * 50) (1/2 : ℚ)
        from by norm_num]
    rw [show (2999 : ℕ) = 2980 + 19 from by norm_num]
    rw [detectLoop_phase_const 1000 50 (by norm_num) (1/50) (2/5) (1/2)
      ⟨true, 0, 0, []⟩ hstepA 19
      (List.replicate 600 (0 : ℚ) ++ List.replicate 1400 (1/2 : ℚ)) 2980 50]
  have h3 : detectLoop 1000 50 (1/50) (2/5) 2980
      (List.replicate 600 (0 : ℚ) ++ List.replicate 1400 (1/2 : ℚ)) 1000
      ⟨true, 0, 0, []⟩
      = detectLoop 1000 50 (1/50) (2/5) 2979
        (List.replicate 550 (0 : ℚ) ++ List.replicate 1400 (1/2 : ℚ)) 1050
        ⟨false, 0, 0, [⟨1, 0⟩]⟩ := by
    rw [show List.replicate 600 (0 : ℚ)
        = List.replicate 50 (0 : ℚ) ++ List.replicate 550 (0 : ℚ) from by
      rw [← List.replicate_add]]
    rw [List.append_assoc, show (2980 : ℕ) = 2979 + 1 from by norm_num]
    rw [detectLoop_window 1000 50 (by norm_num) (1/50) (2/5) 0
      (List.replicate 550 (0 : ℚ) ++ List.replicate 1400 (1/2 : ℚ)) 2979 1000
      ⟨true, 0, 0, []⟩]
    rw [detectStep_quiet_speaking_close 1000 50 (1/50) (2/5) 1000
      (List.replicate 50 (0 : ℚ)) ⟨true, 0, 0, []⟩ hquiet rfl
      (by push_cast; norm_num) (by push_cast; norm_num)]
    norm_num
  have h4 : detectLoop 1000 50 (1/50) (2/5) 2979
      (List.replicate 550 (0 : ℚ) ++ List.replicate 1400 (1/2 : ℚ)) 1050
      ⟨false, 0, 0, [⟨1, 0⟩]⟩
      = detectLoop 1000 50 (1/50) (2/5) 2968
        (List.replicate 1400 (1/2 : ℚ)) 1600 ⟨false, 0, 31/20, [⟨1, 0⟩]⟩ := by
    rw [show List.replicate 550 (0 : ℚ) = List.replicate ((10 + 1) * 50) (0 : ℚ)
        from by norm_num]
    rw [show (2979 : ℕ) = 2968 + (10 + 1) from by norm_num]
    rw [detectLoop_phase_silence 1000 50 (by norm_num) (1/50) (2/5) 0 hquiet
      10 (List.replicate 1400 (1/2 : ℚ)) 2968 1050 ⟨false, 0, 0, [⟨1, 0⟩]⟩ rfl]
    norm_num
  have h5 : detectLoop 1000 50 (1/50) (2/5) 2968
      (List.replicate 1400 (1/2 : ℚ)) 1600 ⟨false, 0, 31/20, [⟨1, 0⟩]⟩
      = detectLoop 1000 50 (1/50) (2/5) 2967
        (List.replicate 1350 (1/2 : ℚ)) 1650 ⟨true, 3/2, 31/20, [⟨1, 0⟩]⟩ := by
    rw [show List.replicate 1400 (1/2 : ℚ)
        = List.replicate 50 (1/2 : ℚ) ++ List.replicate 1350 (1/2 : ℚ) from by
      rw [← List.replicate_add]]
    rw [show (2968 : ℕ) = 2967 + 1 from by norm_num]
    rw [detectLoop_window 1000 50 (by norm_num) (1/50) (2/5) (1/2)
      (List.replicate 1350 (1/2 : ℚ)) 2967 1600 ⟨false, 0, 31/20, [⟨1, 0⟩]⟩]
    rw [detectStep_loud_notSpeaking 1000 50 (1/50) (2/5) 1600
      (List.replicate 50 (1/2 : ℚ)) ⟨false, 0, 31/20, [⟨1, 0⟩]⟩ hloud rfl]
    norm_num [max_def]
  have hstepB : ∀ i, detectStep 1000 50 (1/50) (2/5) i
      (List.replicate 50 (1/2 : ℚ)) ⟨true, 3/2, 31/20, [⟨1, 0⟩]⟩
      = ⟨true, 3/2, 31/20, [⟨1, 0⟩]⟩ :=
    fun i => detectStep_loud_speaking 1000 50 (1/50) (2/5) i _ _ hloud rfl
  have h6 : detectLoop 1000 50 (1/50) (2/5) 2967
      (List.replicate 1350 (1/2 : ℚ)) 1650 ⟨true, 3/2, 31/20, [⟨1, 0⟩]⟩
      = ⟨true, 3/2, 31/20, [⟨1, 0⟩]⟩ := by
    rw [show List.replicate 1350 (1/2 : ℚ)
        = List.replicate (27 * 50) (1/2 : ℚ) ++ ([] : List ℚ) from by norm_num]
    rw [show (2967 : ℕ) = 2940 + 27 from by norm_num]
    rw [detectLoop_phase_const 1000 50 (by norm_num) (1/50) (2/5) (1/2)
      ⟨true, 3/2, 31/20, [⟨1, 0⟩]⟩ hstepB 27 [] 2940 1650]
    rfl
  have hlen : (List.replicate 1000 (1/2 : ℚ) ++ List.replicate 600 (0 : ℚ)
      ++ List.replicate 1400 (1/2 : ℚ)).length = 3000 := by
    rw [List.length_append, List.length_append, List.length_replicate,
      List.length_replicate, List.length_replicate]
  simp only [detectSilenceAndCut]
  rw [show ⌊(1000 : ℚ) * (1/20 : ℚ)⌋₊ = 50 from by norm_num]
  rw [if_pos (show (0 : ℕ) < 50 from by norm_num)]
  rw [hlen, List.append_assoc, h1, h2, h3, h4, h5, h6]
  norm_num

/-- C6 counterexample: on the spec's example waveform the second emitted
span has duration 1.5 s, not approximately 1.4 s — the difference (0.1 s,
the attack pre-roll) exceeds the 50 ms analysis window. -/
theorem detectSilenceAndCut_example_second_span_not_1_4 :
    (detectSilenceAndCut
        (List.replicate 1000 (1/2 : ℚ) ++ List.replicate 600 (0 : ℚ)
          ++ List.replicate 1400 (1/2 : ℚ))
        1000 (1/50) (2/5)).map CutSegment.duration = [1, 3/2]
    ∧ ¬ (|(3/2 : ℚ) - 7/5| ≤ 1/20) := by
  constructor
  · rw [detectSilenceAndCut_example_run]
    rfl
  · rw [show (3/2 : ℚ) - 7/5 = 1/10 from by norm_num,
      abs_of_pos (show (0 : ℚ) < 1/10 from by norm_num)]
    norm_num

/-- C6 amended: the example waveform yields exactly two spans, of durations
1.0 s (source offset 0) and 1.5 s (the 1.4 s of sound plus the 0.1 s
pre-roll, source offset 1.5 s), and neither is discarded by the 0.5 s
floor. -/
theorem detectSilenceAndCut_example_spans :
    detectSilenceAndCut
      (List.replicate 1000 (1/2 : ℚ) ++ List.replicate 600 (0 : ℚ)
        ++ List.replicate 1400 (1/2 : ℚ))
      1000 (1/50) (2/5) = [⟨1, 0⟩, ⟨3/2, 3/2⟩]
    ∧ ∀ seg ∈ detectSilenceAndCut
        (List.replicate 1000 (1/2 : ℚ) ++ List.replicate 600 (0 : ℚ)
          ++ List.replicate 1400 (1/2 : ℚ))
        1000 (1/50) (2/5), (1/2 : ℚ) < seg.duration := by
  refine ⟨detectSilenceAndCut_example_run, ?_⟩
  rw [detectSilenceAndCut_example_run]
  intro seg hseg
  rcases List.mem_cons.mp hseg with h | h
  · rw [h]
    norm_num
  · rw [List.mem_singleton.mp h]
    norm_num
